import Mathlib

/-!
Verification of the pachydurable repository against its specification.

The Rust source is shallowly embedded: pure string processing becomes
functions on `List Char` / `String`; the Redis-backed operations become
explicit state passing over a model of the relevant Redis state; fallible
database calls become `Except` / parameterised outcome lists.

Modules embedded:
- src/fulltext.rs  : `sanitize_tsquery`, `ts_expression`
- src/redis.rs     : `Cacheable::redis_key`, `cached_or_cache`,
                     `PreWarmDepth`, `warm_the_cache`
- src/borg.rs      : `borg` (key derivation, intermediate caching, dedup
                     set maintenance, hook calls), `get_string_id`
- src/err.rs       : the error variants the claims mention
-/

set_option maxRecDepth 400000

namespace Pachydurable

/-! ## fulltext.rs : sanitize_tsquery

The Rust function applies, in order:
1. `special_chars = [^a-zA-Z0-9\s&|!]` replaced by a space,
2. `multiple_spaces = \s+` collapsed to a single space, then `.trim()`,
3. `" "` replaced by `" & "`,
4. `duplicate_operators = (&{2,}|!{2,}|\|{2,})` replaced by a space,
5. `^(&|\||!)|(&|\||!)$` removed,
6. if `is_autocomp`, `":*"` appended.
-/

/-- The three boolean operator characters recognised by the sanitizer. -/
def isOp (c : Char) : Bool := c == '&' || c == '|' || c == '!'

/-- Code points with the Unicode White_Space property (what the regex
class `\s` and Rust `str::trim` match). -/
def wsCodes : List Nat :=
  [9, 10, 11, 12, 13, 32, 133, 160, 5760,
   8192, 8193, 8194, 8195, 8196, 8197, 8198, 8199, 8200, 8201, 8202,
   8232, 8233, 8239, 8287, 12288]

/-- Whitespace test used by the embedded regex steps. -/
def isWs (c : Char) : Bool := wsCodes.contains c.toNat

/-- ASCII letter or digit, the character class `[a-zA-Z0-9]`. -/
def isAsciiAlnum (c : Char) : Bool :=
  (97 ≤ c.toNat && c.toNat ≤ 122) || (65 ≤ c.toNat && c.toNat ≤ 90) ||
  (48 ≤ c.toNat && c.toNat ≤ 57)

/-- A character the first regex step keeps: everything outside
`[^a-zA-Z0-9\s&|!]`, i.e. alphanumerics, whitespace and the operators. -/
def keepChar (c : Char) : Bool := isAsciiAlnum c || isWs c || isOp c

/-- Step 1: `special_chars.replace_all(input, " ")`. -/
def specialToSpace (l : List Char) : List Char :=
  l.map (fun c => if keepChar c then c else ' ')

/-- Step 2a: `multiple_spaces.replace_all(_, " ")`: each maximal run of
whitespace becomes one space.  `prevWs` records whether the previous
character was whitespace (inside a run already replaced). -/
def collapseWsAux (prevWs : Bool) : List Char → List Char
  | [] => []
  | c :: cs =>
    if isWs c then
      if prevWs then collapseWsAux true cs
      else ' ' :: collapseWsAux true cs
    else c :: collapseWsAux false cs

/-- Step 2a at the top level. -/
def collapseWs (l : List Char) : List Char := collapseWsAux false l

/-- Step 2b: `str::trim`, removing leading and trailing whitespace. -/
def trimWs (l : List Char) : List Char :=
  ((l.dropWhile (fun c => isWs c)).reverse.dropWhile (fun c => isWs c)).reverse

/-- Step 3: `cleaned.replace(" ", " & ")`. -/
def replaceSpaceAmp : List Char → List Char
  | [] => []
  | c :: cs => (if c == ' ' then [' ', '&', ' '] else [c]) ++ replaceSpaceAmp cs

/-- Step 4 worker: each maximal run of two or more identical operator
characters becomes one space.  `deleting = some r` means we are inside a
run of the operator `r` whose replacement space was already emitted. -/
def cdoAux (deleting : Option Char) : List Char → List Char
  | [] => []
  | c :: cs =>
    match deleting with
    | some r =>
      if c == r then cdoAux (some r) cs
      else
        if isOp c && cs.head? == some c then ' ' :: cdoAux (some c) cs
        else c :: cdoAux none cs
    | none =>
      if isOp c && cs.head? == some c then ' ' :: cdoAux (some c) cs
      else c :: cdoAux none cs

/-- Step 4: `duplicate_operators.replace_all(_, " ")`. -/
def collapseDupOps (l : List Char) : List Char := cdoAux none l

/-- Step 5a: the `^(&|\||!)` alternative removes one leading operator. -/
def dropLeadOp : List Char → List Char
  | [] => []
  | c :: cs => if isOp c then cs else c :: cs

/-- Step 5b: the `(&|\||!)$` alternative removes one trailing operator. -/
def dropTrailOp (l : List Char) : List Char :=
  match l.getLast? with
  | some d => if isOp d then l.dropLast else l
  | none => l

/-- Step 5: `leading_trailing_ops.replace_all(_, "")`. -/
def stripLeadTrailOps (l : List Char) : List Char := dropTrailOp (dropLeadOp l)

/-- The whole of `sanitize_tsquery` on character lists, steps in source
order. -/
def sanitizeCore (input : List Char) (is_autocomp : Bool) : List Char :=
  let c1 := specialToSpace input
  let c2 := trimWs (collapseWs c1)
  let c3 := replaceSpaceAmp c2
  let c4 := collapseDupOps c3
  let c5 := stripLeadTrailOps c4
  if is_autocomp then c5 ++ [':', '*'] else c5

/-- `sanitize_tsquery` on strings, as exported by fulltext.rs. -/
def sanitize_tsquery (input : String) (is_autocomp : Bool) : String :=
  String.mk (sanitizeCore input.toList is_autocomp)

/-- `ts_expression(phrase) = sanitize_tsquery(phrase, true)`. -/
def ts_expression (phrase : String) : String := sanitize_tsquery phrase true

/-- The character set `[A-Za-z0-9 &|!]` the spec says the sanitized
output stays inside. -/
def allowedOut (c : Char) : Bool := isAsciiAlnum c || isOp c || c == ' '

/-- No two adjacent characters are the same operator: the absence of
doubled `&&`, `||`, `!!` runs. -/
def noDupOps : List Char → Bool
  | [] => true
  | [_] => true
  | c :: d :: rest => !(isOp c && c == d) && noDupOps (d :: rest)

/-! ## redis.rs : Cacheable::redis_key and cached_or_cache

`redis_key` starts from `format!("cacheable_{}", Self::key_prefix())` and
appends `format!("_{:?}", param).replace("\"","")` for each parameter; a
parameter is modelled by its already-rendered, quote-stripped debug text. -/

/-- The default `Cacheable::redis_key` derivation. -/
def cacheable_redis_key (keyPfx : String) (params : List String) : String :=
  params.foldl (fun key p => key ++ "_" ++ p) ("cacheable_" ++ keyPfx)

/-- The `Cacheable` trait data `cached_or_cache` consumes: `key_prefix()`,
`seconds_expiry()`, `query()` and `from_row`. -/
structure CacheableTr (Row T : Type) where
  keyPfx : String
  seconds_expiry : Nat
  queryStr : String
  from_row : Row → T

/-- Observable outcome of one `cached_or_cache` call: the returned value,
whether Postgres was queried, and the cache write performed
(key, value, TTL seconds), if any. -/
structure CocResult (T : Type) where
  result : Option T
  queriedPg : Bool
  cacheWrite : Option (String × T × Nat)

/-- The `cached_or_cache` control flow: read the derived key from the
cache; on a hit return it; on a miss run the query, and cache row 0 with
the type's expiry before returning it, or return none when there is no
row.  `cache` is the Redis key-value state restricted to this type;
`dbRows` is what `c.query(T::query(), params)` returns. -/
def cached_or_cache (tr : CacheableTr Row T) (cache : String → Option T)
    (dbRows : List Row) (params : List String) : CocResult T :=
  let key := cacheable_redis_key tr.keyPfx params
  match cache key with
  | some val => ⟨some val, false, none⟩
  | none =>
    match dbRows.head? with
    | none => ⟨none, true, none⟩
    | some row =>
      let val := tr.from_row row
      ⟨some val, true, some (key, val, tr.seconds_expiry)⟩

/-- Apply a `CocResult` cache write (a `set_ex`) to a cache state. -/
def applyWrite (cache : String → Option T) : Option (String × T × Nat) → String → Option T
  | none => cache
  | some (k, v, _) => fun q => if q = k then some v else cache q

/-! ## redis.rs : PreWarmDepth and warm_the_cache

`warm_the_cache` iterates `c1` over `chars1`, recaches after each phrase
update, and — crucially — pushes `c2` (and `c3`) onto the *same* `phrase`
variable without resetting it, so the inner phrases accumulate.  The model
returns the list of phrases passed to `recache`, in call order. -/

/-- The `PreWarmDepth` enum. -/
inductive PreWarmDepth
  | Char1
  | Char2
  | Char3
deriving DecidableEq

/-- The outer alphabet `chars1` (36 symbols). -/
def chars1 : List Char := "abcdefghijklmnopqrstuvwxyz0123456789".toList

/-- The inner alphabet `chars23` (note the space at the end). -/
def chars23 : List Char := "abcdefghijklmnopqrstuvwxyz_.!?-0123456789 ".toList

/-- The innermost `c3` loop: pushes each character onto the running
phrase and recaches; returns the final phrase and the recached phrases. -/
def warmLoop3 (phrase : List Char) : List Char → List Char × List (List Char)
  | [] => (phrase, [])
  | c :: cs =>
    let p := phrase ++ [c]
    let pr := warmLoop3 p cs
    (pr.1, p :: pr.2)

/-- The `c2` loop: pushes each character onto the running phrase,
recaches, and for depth `Char3` runs the `c3` loop before continuing. -/
def warmLoop2 (depth : PreWarmDepth) (phrase : List Char) :
    List Char → List Char × List (List Char)
  | [] => (phrase, [])
  | c :: cs =>
    let p := phrase ++ [c]
    match depth with
    | PreWarmDepth.Char3 =>
      let r3 := warmLoop3 p chars23
      let r2 := warmLoop2 depth r3.1 cs
      (r2.1, p :: (r3.2 ++ r2.2))
    | _ =>
      let r2 := warmLoop2 depth p cs
      (r2.1, p :: r2.2)

/-- All phrases `warm_the_cache` passes to `recache`, in call order, for a
type of the given prewarm depth. -/
def warm_the_cache (depth : PreWarmDepth) : List (List Char) :=
  chars1.flatMap (fun c1 =>
    let phrase := [c1]
    match depth with
    | PreWarmDepth.Char1 => [phrase]
    | _ => phrase :: (warmLoop2 depth phrase chars23).2)

/-! ## borg.rs : the Borg trait and the borg() coordinator

The trait's pure methods become fields of `BorgTr`; `redis_value`,
`generate` and `instantiate` are modelled by their success values.  The
Redis state borg touches is a key-value map for cached `R` values and a
map of named string sets; the hooks are modelled as effect-free recorded
events, which is the common (non-racing, non-failing) case the claims are
about. -/

/-- Default body of `Borg::redis_expiry_r` (two hours). -/
def redis_expiry_r_default : Nat := 60 * 60 * 2

/-- Default body of `Borg::redis_pk_max_ct`. -/
def redis_pk_max_ct_default : Nat := 1000000

/-- The `Borg<B, O, R, G, E>` trait methods used by `borg()`.  `redisPfx`
embeds `redis_prefix()` (the Lean name avoids a reserved word). -/
structure BorgTr (B O R G T : Type) where
  redisPfx : String
  redis_suffix_r : B → O → String
  redis_expiry_r : Nat
  redis_pk_member : T → String
  redis_pk_max_ct : Nat
  redis_value : B → O → R
  generate : B → O → R → G
  instantiate : B → G → T

/-- The slice of Redis state `borg()` reads and writes: the JSON cache of
`R` values and the named sets of primary-key members. -/
structure RedisState (R : Type) where
  kv : String → Option R
  sets : String → Finset String

/-- A `rediserde::set_ex` on the `R` cache (expiry not represented in the
state; it is recorded in `BorgRun` nowhere because no claim needs it). -/
def setKV (st : RedisState R) (k : String) (v : R) : RedisState R :=
  RedisState.mk (fun q => if q = k then some v else st.kv q) st.sets

/-- Replace one named set (covers `sadd` and `del` effects). -/
def setSet (st : RedisState R) (k : String) (s : Finset String) : RedisState R :=
  RedisState.mk st.kv (fun q => if q = k then s else st.sets q)

/-- The key `borg()` caches `R` under: `format!("borg_r_{}_{}", prefix, suffix)`. -/
def borgKeyR (tr : BorgTr B O R G T) (b : B) (o : O) : String :=
  "borg_r_" ++ tr.redisPfx ++ "_" ++ tr.redis_suffix_r b o

/-- The dedup set key: `format!("borg_pks_{}", prefix)`. -/
def borgKeySet (tr : BorgTr B O R G T) : String :=
  "borg_pks_" ++ tr.redisPfx

/-- The `R` value one `borg()` call ends up with: the cached value on a
hit, `redis_value(b, o)` on a miss. -/
def borgRVal (tr : BorgTr B O R G T) (st : RedisState R) (b : B) (o : O) : R :=
  match st.kv (borgKeyR tr b o) with
  | some val => val
  | none => tr.redis_value b o

/-- The instance one `borg()` call constructs: `instantiate(b, generate(b, o, r))`. -/
def borgInst (tr : BorgTr B O R G T) (st : RedisState R) (b : B) (o : O) : T :=
  tr.instantiate b (tr.generate b o (borgRVal tr st b o))

/-- The dedup-identity string of the constructed instance. -/
def borgMember (tr : BorgTr B O R G T) (st : RedisState R) (b : B) (o : O) : String :=
  tr.redis_pk_member (borgInst tr st b o)

/-- Observable outcome of one `borg()` call: the constructed instance,
the Redis state afterwards, the two derived keys, and which hooks ran. -/
structure BorgRun (R T : Type) where
  inst : T
  state : RedisState R
  keyR : String
  keySet : String
  calledOnInvocation : Bool
  calledOnPkSadd : Bool
  calledOnInstantiation : Bool

/-- The `borg()` coordinator: on_invocation, key derivation, cache-aside
fetch of `R` (with a `set_ex` on a miss), generate, instantiate, then the
dedup block — if the member is absent, run on_pk_sadd, clear the set when
`redis_pk_max_ct() < scard`, and `sadd` the member — and on_instantiation. -/
def borg (tr : BorgTr B O R G T) (st : RedisState R) (b : B) (o : O) : BorgRun R T :=
  let key_r := borgKeyR tr b o
  let key_set_pks := borgKeySet tr
  let st1 := match st.kv key_r with
    | some _ => st
    | none => setKV st key_r (tr.redis_value b o)
  let inst := borgInst tr st b o
  let member := tr.redis_pk_member inst
  let s := st1.sets key_set_pks
  let dedup : RedisState R × Bool :=
    if member ∈ s then (st1, false)
    else
      (setSet st1 key_set_pks
        (insert member (if tr.redis_pk_max_ct < s.card then (∅ : Finset String) else s)),
       true)
  BorgRun.mk inst dedup.1 key_r key_set_pks true dedup.2 true

/-! ## borg.rs : get_string_id

One resolve attempt is a world the database presents: the rows the select
returns, and what the insert does if it is reached.  The insert error is
its rendered text, on which the code does a substring test.  The function
returns the outcome together with the total milliseconds slept before
retries (`std::thread::sleep(Duration::from_millis(100))` per retry). -/

/-- One select/insert world for `get_string_id`. -/
structure GsiAttempt (Row : Type) where
  selectRows : List Row
  insertResult : Except String (List Row)

/-- The error outcomes of the embedded `get_string_id`. -/
inductive GsiError
  | missingRow (message : String)
  | pg (errtext : String)
  | noMoreAttempts
deriving DecidableEq

/-- The substring the code looks for in the insert error text. -/
def dupKeyMarker : String := "duplicate key value violates unique constraint"

/-- Whether the first list starts the second. -/
def isPfxOf : List Char → List Char → Bool
  | [], _ => true
  | _ :: _, [] => false
  | a :: as, b :: bs => a == b && isPfxOf as bs

/-- Whether the first list occurs contiguously inside the second. -/
def containsSeq (pat : List Char) : List Char → Bool
  | [] => isPfxOf pat []
  | c :: cs => isPfxOf pat (c :: cs) || containsSeq pat cs

/-- `errtext.contains("duplicate key value violates unique constraint")`. -/
def isDupKeyErr (errtext : String) : Bool :=
  containsSeq dupKeyMarker.toList errtext.toList

/-- `get_string_id`: select first; return row 0's key if present; else
insert and return row 0's key; a missing row after a successful insert is
a `MissingRowError` with the code's message; a duplicate-key insert error
sleeps 100 ms and retries the whole resolve; any other insert error
propagates.  The attempt list is the fuel: the real code recurses
unboundedly, so an exhausted list is an artificial `noMoreAttempts`. -/
def get_string_id (first : Row → T) :
    List (GsiAttempt Row) → Except GsiError T × Nat
  | [] => (Except.error GsiError.noMoreAttempts, 0)
  | a :: rest =>
    match a.selectRows.head? with
    | some row => (Except.ok (first row), 0)
    | none =>
      match a.insertResult with
      | Except.ok rows =>
        match rows.head? with
        | some row => (Except.ok (first row), 0)
        | none =>
          (Except.error (GsiError.missingRow
            "How on earth do you insert a row but not get it back?"), 0)
      | Except.error errtext =>
        if isDupKeyErr errtext then
          let r := get_string_id first rest
          (r.1, 100 + r.2)
        else (Except.error (GsiError.pg errtext), 0)

/-! ## Shared helper definitions -/

/-- Spec-side rendering of the parameter part of a cache-aside key: the
parameters joined with an underscore before each. -/
def specJoinParams : List String → String
  | [] => ""
  | p :: ps => "_" ++ p ++ specJoinParams ps

/-- A demonstration Borg trait instance used by concrete witnesses. -/
def demoTr : BorgTr Unit Unit Nat Nat Unit :=
  BorgTr.mk "p" (fun _ _ => "s") redis_expiry_r_default (fun _ => "m")
    redis_pk_max_ct_default (fun _ _ => 7) (fun _ _ r => r) (fun _ _ => ())

/-- An empty Redis state. -/
def emptySt : RedisState Nat := RedisState.mk (fun _ => none) (fun _ => ∅)

/-- A demonstration trait whose dedup set is capped at zero members. -/
def smallTr : BorgTr Unit Unit Nat Nat Unit :=
  BorgTr.mk "p" (fun _ _ => "s") redis_expiry_r_default (fun _ => "m") 0
    (fun _ _ => 7) (fun _ _ r => r) (fun _ _ => ())

/-- A Redis state whose every set already holds one other member. -/
def fullSt : RedisState Nat := RedisState.mk (fun _ => none) (fun _ => {"x"})

/-! ## State projection and helper lemmas -/

@[simp] theorem setKV_kv (st : RedisState R) (k : String) (v : R) (q : String) :
    (setKV st k v).kv q = if q = k then some v else st.kv q := rfl

@[simp] theorem setKV_sets (st : RedisState R) (k : String) (v : R) :
    (setKV st k v).sets = st.sets := rfl

@[simp] theorem setSet_kv (st : RedisState R) (k : String) (s : Finset String) :
    (setSet st k s).kv = st.kv := rfl

@[simp] theorem setSet_sets (st : RedisState R) (k : String) (s : Finset String) (q : String) :
    (setSet st k s).sets q = if q = k then s else st.sets q := rfl

theorem str_append_assoc (a b c : String) : a ++ b ++ c = a ++ (b ++ c) := by
  cases a; cases b; cases c
  show String.mk _ = String.mk _
  rw [List.append_assoc]

theorem str_append_empty (a : String) : a ++ "" = a := by
  cases a
  show String.mk _ = String.mk _
  rw [List.append_nil]

theorem foldl_key_append (ps : List String) (acc : String) :
    ps.foldl (fun key p => key ++ "_" ++ p) acc = acc ++ specJoinParams ps := by
  induction ps generalizing acc with
  | nil => simp [specJoinParams, str_append_empty]
  | cons p ps ih =>
    rw [List.foldl_cons, ih]
    simp only [specJoinParams, str_append_assoc]

theorem borg_state_sets (tr : BorgTr B O R G T) (st : RedisState R) (b : B) (o : O)
    (habs : borgMember tr st b o ∉ st.sets (borgKeySet tr)) :
    ((borg tr st b o).state).sets (borgKeySet tr) =
      insert (borgMember tr st b o)
        (if tr.redis_pk_max_ct < (st.sets (borgKeySet tr)).card then (∅ : Finset String)
         else st.sets (borgKeySet tr)) := by
  unfold borg
  cases hkv : st.kv (borgKeyR tr b o) with
  | some v =>
    simp only [hkv, borgMember] at habs ⊢
    rw [if_neg habs]
    simp
  | none =>
    simp only [hkv, setKV_sets, borgMember] at habs ⊢
    rw [if_neg habs]
    simp

theorem borg_state_kv (tr : BorgTr B O R G T) (st : RedisState R) (b : B) (o : O) :
    ((borg tr st b o).state).kv (borgKeyR tr b o) = some (borgRVal tr st b o) := by
  unfold borg
  cases hkv : st.kv (borgKeyR tr b o) with
  | some v =>
    simp only [hkv, borgRVal]
    split
    · simp [hkv]
    · simp [hkv]
  | none =>
    simp only [hkv, borgRVal]
    split
    · simp [hkv]
    · simp [hkv]

theorem borgRVal_of_kv_some (tr : BorgTr B O R G T) (st : RedisState R) (b : B) (o : O)
    (v : R) (h : st.kv (borgKeyR tr b o) = some v) : borgRVal tr st b o = v := by
  unfold borgRVal
  rw [h]

theorem borg_member_stable (tr : BorgTr B O R G T) (st : RedisState R) (b : B) (o : O) :
    borgMember tr (borg tr st b o).state b o = borgMember tr st b o := by
  unfold borgMember borgInst
  rw [borgRVal_of_kv_some tr (borg tr st b o).state b o (borgRVal tr st b o)
    (borg_state_kv tr st b o)]

theorem borg_pk_sadd_of_absent (tr : BorgTr B O R G T) (st : RedisState R) (b : B) (o : O)
    (habs : borgMember tr st b o ∉ st.sets (borgKeySet tr)) :
    (borg tr st b o).calledOnPkSadd = true := by
  unfold borg
  cases hkv : st.kv (borgKeyR tr b o) with
  | some v =>
    simp only [hkv, borgMember] at habs ⊢
    rw [if_neg habs]
  | none =>
    simp only [hkv, setKV_sets, borgMember] at habs ⊢
    rw [if_neg habs]

theorem borg_no_pk_sadd_of_present (tr : BorgTr B O R G T) (st : RedisState R) (b : B) (o : O)
    (hmem : borgMember tr st b o ∈ st.sets (borgKeySet tr)) :
    (borg tr st b o).calledOnPkSadd = false := by
  unfold borg
  cases hkv : st.kv (borgKeyR tr b o) with
  | some v =>
    simp only [hkv, borgMember] at hmem ⊢
    rw [if_pos hmem]
  | none =>
    simp only [hkv, setKV_sets, borgMember] at hmem ⊢
    rw [if_pos hmem]

/-! ## Character-set lemmas for the sanitizer -/

theorem mem_specialToSpace {l : List Char} {c : Char} (h : c ∈ specialToSpace l) :
    keepChar c = true ∨ c = ' ' := by
  unfold specialToSpace at h
  obtain ⟨a, _, ha⟩ := List.mem_map.mp h
  by_cases hk : keepChar a = true
  · rw [if_pos hk] at ha
    exact Or.inl (ha ▸ hk)
  · rw [if_neg hk] at ha
    exact Or.inr ha.symm

theorem mem_collapseWsAux : ∀ (prev : Bool) (l : List Char) (c : Char),
    c ∈ collapseWsAux prev l → c = ' ' ∨ (c ∈ l ∧ isWs c = false) := by
  intro prev l
  induction l generalizing prev with
  | nil => intro c h; simp [collapseWsAux] at h
  | cons a as ih =>
    intro c h
    unfold collapseWsAux at h
    by_cases ha : isWs a = true
    · rw [if_pos ha] at h
      cases prev with
      | true =>
        rw [if_pos rfl] at h
        rcases ih true c h with h1 | ⟨h1, h2⟩
        · exact Or.inl h1
        · exact Or.inr ⟨List.mem_cons_of_mem a h1, h2⟩
      | false =>
        rw [if_neg Bool.false_ne_true] at h
        rcases List.mem_cons.mp h with h1 | h1
        · exact Or.inl h1
        · rcases ih true c h1 with h2 | ⟨h2, h3⟩
          · exact Or.inl h2
          · exact Or.inr ⟨List.mem_cons_of_mem a h2, h3⟩
    · rw [if_neg ha] at h
      rcases List.mem_cons.mp h with h1 | h1
      · subst h1
        exact Or.inr ⟨List.mem_cons_self c as, by simpa using ha⟩
      · rcases ih false c h1 with h2 | ⟨h2, h3⟩
        · exact Or.inl h2
        · exact Or.inr ⟨List.mem_cons_of_mem a h2, h3⟩

theorem mem_trimWs {l : List Char} {c : Char} (h : c ∈ trimWs l) : c ∈ l := by
  unfold trimWs at h
  rw [List.mem_reverse] at h
  have h1 := (List.dropWhile_sublist _).subset h
  rw [List.mem_reverse] at h1
  exact (List.dropWhile_sublist _).subset h1

theorem mem_replaceSpaceAmp : ∀ (l : List Char) (c : Char),
    c ∈ replaceSpaceAmp l → c ∈ l ∨ c = '&' ∨ c = ' ' := by
  intro l
  induction l with
  | nil => intro c h; simp [replaceSpaceAmp] at h
  | cons a as ih =>
    intro c h
    unfold replaceSpaceAmp at h
    rcases List.mem_append.mp h with h1 | h1
    · by_cases hsp : (a == ' ') = true
      · rw [if_pos hsp] at h1
        have h2 : c = ' ' ∨ c = '&' ∨ c = ' ' := by simpa using h1
        rcases h2 with h3 | h3 | h3
        · exact Or.inr (Or.inr h3)
        · exact Or.inr (Or.inl h3)
        · exact Or.inr (Or.inr h3)
      · rw [if_neg hsp] at h1
        have h2 : c = a := by simpa using h1
        subst h2
        exact Or.inl (List.mem_cons_self c as)
    · rcases ih c h1 with h2 | h2
      · exact Or.inl (List.mem_cons_of_mem a h2)
      · exact Or.inr h2

theorem mem_cdoAux : ∀ (l : List Char) (d : Option Char) (c : Char),
    c ∈ cdoAux d l → c = ' ' ∨ c ∈ l := by
  intro l
  induction l with
  | nil => intro d c h; simp [cdoAux] at h
  | cons a as ih =>
    intro d c h
    have hfresh : c ∈ (if (isOp a && as.head? == some a) = true
        then ' ' :: cdoAux (some a) as else a :: cdoAux none as) →
        c = ' ' ∨ c ∈ a :: as := by
      intro hf
      by_cases hg : (isOp a && as.head? == some a) = true
      · rw [if_pos hg] at hf
        rcases List.mem_cons.mp hf with h1 | h1
        · exact Or.inl h1
        · rcases ih (some a) c h1 with h2 | h2
          · exact Or.inl h2
          · exact Or.inr (List.mem_cons_of_mem a h2)
      · rw [if_neg hg] at hf
        rcases List.mem_cons.mp hf with h1 | h1
        · subst h1
          exact Or.inr (List.mem_cons_self c as)
        · rcases ih none c h1 with h2 | h2
          · exact Or.inl h2
          · exact Or.inr (List.mem_cons_of_mem a h2)
    cases d with
    | some r =>
      simp only [cdoAux] at h
      by_cases har : (a == r) = true
      · rw [if_pos har] at h
        rcases ih (some r) c h with h1 | h1
        · exact Or.inl h1
        · exact Or.inr (List.mem_cons_of_mem a h1)
      · rw [if_neg har] at h
        exact hfresh h
    | none =>
      simp only [cdoAux] at h
      exact hfresh h

theorem mem_dropLeadOp {l : List Char} {c : Char} (h : c ∈ dropLeadOp l) : c ∈ l := by
  cases l with
  | nil => simp [dropLeadOp] at h
  | cons a as =>
    simp only [dropLeadOp] at h
    by_cases ha : isOp a = true
    · rw [if_pos ha] at h
      exact List.mem_cons_of_mem a h
    · rw [if_neg ha] at h
      exact h

theorem mem_dropTrailOp {l : List Char} {c : Char} (h : c ∈ dropTrailOp l) : c ∈ l := by
  unfold dropTrailOp at h
  cases hlast : l.getLast? with
  | none =>
    simp only [hlast] at h
    exact h
  | some d =>
    simp only [hlast] at h
    by_cases hd : isOp d = true
    · rw [if_pos hd] at h
      exact (List.dropLast_sublist _).subset h
    · rw [if_neg hd] at h
      exact h

theorem allowedOut_of_sanitize {p : String} {c : Char}
    (h : c ∈ (sanitize_tsquery p false).toList) : allowedOut c = true := by
  have h4 : c ∈ collapseDupOps (replaceSpaceAmp (trimWs (collapseWs (specialToSpace p.toList)))) :=
    mem_dropLeadOp (mem_dropTrailOp h)
  rcases mem_cdoAux _ none c h4 with hsp | h3
  · subst hsp; decide
  rcases mem_replaceSpaceAmp _ c h3 with h2 | hamp | hsp
  · have h2' : c ∈ collapseWsAux false (specialToSpace p.toList) := mem_trimWs h2
    rcases mem_collapseWsAux false _ c h2' with hsp | ⟨h1, hnws⟩
    · subst hsp; decide
    rcases mem_specialToSpace h1 with hkeep | hsp
    · unfold keepChar at hkeep
      unfold allowedOut
      rw [hnws] at hkeep
      simp only [Bool.or_false] at hkeep
      rcases Bool.or_eq_true_iff.mp hkeep with h | h
      · rw [h]
        simp
      · rw [h]
        simp
    · subst hsp; decide
  · subst hamp; decide
  · subst hsp; decide

/-! ## Doubled-operator lemmas for the sanitizer -/

theorem isOp_ne_space {c : Char} (h : isOp c = true) : (c == ' ') = false := by
  unfold isOp at h
  rcases Bool.or_eq_true_iff.mp h with h1 | h1
  · rcases Bool.or_eq_true_iff.mp h1 with h2 | h2
    · have := eq_of_beq h2
      subst this
      decide
    · have := eq_of_beq h2
      subst this
      decide
  · have := eq_of_beq h1
    subst this
    decide

theorem noDupOps_cons_ok {c : Char} {t : List Char}
    (hpair : ∀ y, t.head? = some y → (isOp c && c == y) = false)
    (ht : noDupOps t = true) : noDupOps (c :: t) = true := by
  cases t with
  | nil => rfl
  | cons y ys =>
    show (!(isOp c && c == y) && noDupOps (y :: ys)) = true
    rw [hpair y rfl, ht]
    rfl

theorem noDupOps_tail {a : Char} {t : List Char} (h : noDupOps (a :: t) = true) :
    noDupOps t = true := by
  cases t with
  | nil => rfl
  | cons y ys =>
    have h' : (!(isOp a && a == y) && noDupOps (y :: ys)) = true := h
    exact (Bool.and_eq_true_iff.mp h').2

theorem cdoAux_fresh_head (a : Char) (as : List Char) :
    (cdoAux none (a :: as)).head? = some ' ' ∨ (cdoAux none (a :: as)).head? = some a := by
  simp only [cdoAux]
  by_cases hg : (isOp a && as.head? == some a) = true
  · rw [if_pos hg]
    exact Or.inl rfl
  · rw [if_neg hg]
    exact Or.inr rfl

theorem noDupOps_cdoAux : ∀ (l : List Char) (d : Option Char),
    noDupOps (cdoAux d l) = true := by
  intro l
  induction l with
  | nil => intro d; cases d <;> rfl
  | cons a as ih =>
    intro d
    have hfresh : noDupOps (if (isOp a && as.head? == some a) = true
        then ' ' :: cdoAux (some a) as else a :: cdoAux none as) = true := by
      by_cases hg : (isOp a && as.head? == some a) = true
      · rw [if_pos hg]
        refine noDupOps_cons_ok ?_ (ih (some a))
        intro y _
        have hsp : isOp ' ' = false := by decide
        rw [hsp]
        rfl
      · rw [if_neg hg]
        cases as with
        | nil => rfl
        | cons b bs =>
          refine noDupOps_cons_ok ?_ (ih none)
          intro y hy
          rcases cdoAux_fresh_head b bs with hh | hh
          · rw [hh] at hy
            have hy' : y = ' ' := by
              have := Option.some.inj hy
              exact this.symm
            rw [hy']
            by_cases hopa : isOp a = true
            · rw [hopa, isOp_ne_space hopa]
              rfl
            · rw [Bool.not_eq_true] at hopa
              rw [hopa]
              rfl
          · rw [hh] at hy
            have hy' : y = b := by
              have := Option.some.inj hy
              exact this.symm
            rw [hy']
            by_cases hopa : isOp a = true
            · have hab : (b == a) = false := by
                have hg' : (isOp a && ((b :: bs).head? == some a)) = false :=
                  Bool.not_eq_true _ ▸ eq_false_of_ne_true hg
                have : ((b :: bs).head? == some a) = false := by
                  rcases Bool.and_eq_false_iff.mp hg' with h | h
                  · rw [hopa] at h
                    exact absurd h (by decide)
                  · exact h
                simpa using this
              have : (a == b) = false := by
                by_cases he : a = b
                · subst he
                  simp at hab
                · exact beq_eq_false_iff_ne.mpr he
              rw [hopa, this]
              rfl
            · rw [Bool.not_eq_true] at hopa
              rw [hopa]
              rfl
    cases d with
    | none => exact hfresh
    | some r =>
      show noDupOps (if (a == r) = true then cdoAux (some r) as
        else if (isOp a && as.head? == some a) = true
          then ' ' :: cdoAux (some a) as else a :: cdoAux none as) = true
      by_cases har : (a == r) = true
      · rw [if_pos har]
        exact ih (some r)
      · rw [if_neg har]
        exact hfresh

theorem noDupOps_dropLast : ∀ (l : List Char), noDupOps l = true →
    noDupOps l.dropLast = true := by
  intro l
  induction l with
  | nil => intro h; exact h
  | cons a as ih =>
    cases as with
    | nil => intro _; rfl
    | cons b bs =>
      intro h
      have h1 : (!(isOp a && a == b) && noDupOps (b :: bs)) = true := h
      obtain ⟨hpair, htail⟩ := Bool.and_eq_true_iff.mp h1
      have ihd := ih htail
      cases bs with
      | nil => rfl
      | cons e es =>
        show (!(isOp a && a == b) && noDupOps (b :: (e :: es).dropLast)) = true
        rw [hpair]
        have ihd' : noDupOps (b :: (e :: es).dropLast) = true := ihd
        rw [ihd']
        rfl

theorem noDupOps_dropLeadOp {l : List Char} (h : noDupOps l = true) :
    noDupOps (dropLeadOp l) = true := by
  cases l with
  | nil => exact h
  | cons a as =>
    simp only [dropLeadOp]
    by_cases ha : isOp a = true
    · rw [if_pos ha]
      exact noDupOps_tail h
    · rw [if_neg ha]
      exact h

theorem noDupOps_dropTrailOp {l : List Char} (h : noDupOps l = true) :
    noDupOps (dropTrailOp l) = true := by
  unfold dropTrailOp
  cases hlast : l.getLast? with
  | none => exact h
  | some d =>
    show noDupOps (if isOp d = true then l.dropLast else l) = true
    by_cases hd : isOp d = true
    · rw [if_pos hd]
      exact noDupOps_dropLast l h
    · rw [if_neg hd]
      exact h

/-! ## Claim theorems -/

/-- C1 (counterexample): for a depth-2 type, `warm_the_cache` issues 1548
recache calls, not 36 + 36×43 = 1584 — the inner alphabet has 42
symbols — and the third recached phrase is already three characters long
because the phrase accumulates across inner iterations. -/
theorem C1_counterexample :
    (warm_the_cache PreWarmDepth.Char2).length = 1548 ∧
    (warm_the_cache PreWarmDepth.Char2).length ≠ 36 + 36 * 43 ∧
    (warm_the_cache PreWarmDepth.Char2).take 3 = [['a'], ['a', 'a'], ['a', 'a', 'b']] := by
  refine ⟨by decide, by decide, by decide⟩

/-- C1 (amended): for depth 1, `warm_the_cache` issues exactly 36 recache
calls, one per 1-character prefix of the 36-symbol alphabet a–z,0–9; for
depth 2 it issues exactly 36 + 36×42 = 1548 calls, the inner alphabet
having 42 symbols, with the inner phrases accumulating characters rather
than being 2-character extensions. -/
theorem C1_warm_counts :
    (warm_the_cache PreWarmDepth.Char1).length = 36 ∧
    warm_the_cache PreWarmDepth.Char1 = chars1.map (fun c => [c]) ∧
    (warm_the_cache PreWarmDepth.Char2).length = 36 + 36 * 42 := by
  refine ⟨by decide, by decide, by decide⟩

/-- C2 (counterexample): the intermediate cache key is `borg_r_p_s`, not
`r_p_s`; the dedup-set key likewise carries the `borg_` namespace; and
the generic cache-aside key carries a `cacheable_` namespace. -/
theorem C2_counterexample :
    (borg demoTr emptySt () ()).keyR = "borg_r_p_s" ∧
    "borg_r_p_s" ≠ "r_p_s" ∧
    (borg demoTr emptySt () ()).keySet = "borg_pks_p" ∧
    "borg_pks_p" ≠ "pks_p" ∧
    cacheable_redis_key "animal" ["7"] = "cacheable_animal_7" ∧
    "cacheable_animal_7" ≠ "animal_7" := by
  refine ⟨rfl, by decide, rfl, by decide, by decide, by decide⟩

/-- C2 (amended): the intermediate cache key is
`"borg_r_" + type_prefix + "_" + suffix(B, O)`, the dedup-set key is
`"borg_pks_" + type_prefix`, and the generic cache-aside key is
`"cacheable_" + key_prefix` followed by the `"_"`-joined parameters. -/
theorem C2_key_formats (tr : BorgTr B O R G T) (st : RedisState R) (b : B) (o : O)
    (kp : String) (ps : List String) :
    (borg tr st b o).keyR = "borg_r_" ++ tr.redisPfx ++ "_" ++ tr.redis_suffix_r b o ∧
    (borg tr st b o).keySet = "borg_pks_" ++ tr.redisPfx ∧
    cacheable_redis_key kp ps = "cacheable_" ++ kp ++ specJoinParams ps := by
  refine ⟨rfl, rfl, ?_⟩
  unfold cacheable_redis_key
  rw [foldl_key_append]

/-- C2 (witness for the amended claim at concrete inputs). -/
theorem C2_key_formats_witness :
    (borg demoTr emptySt () ()).keyR =
      "borg_r_" ++ demoTr.redisPfx ++ "_" ++ demoTr.redis_suffix_r () () ∧
    (borg demoTr emptySt () ()).keySet = "borg_pks_" ++ demoTr.redisPfx ∧
    cacheable_redis_key "animal" ["7"] = "cacheable_" ++ "animal" ++ specJoinParams ["7"] :=
  C2_key_formats demoTr emptySt () () "animal" ["7"]

/-- C3 (counterexample): `sanitize("crimson thread", true)` is not the
string `"crimson&thread:*"`: the space becomes `" & "` with surrounding
spaces. -/
theorem C3_counterexample :
    sanitize_tsquery "crimson thread" true ≠ "crimson&thread:*" := by decide

/-- C3 (amended): `sanitize("crimson thread", true)` returns exactly
`"crimson & thread:*"`: the space between the tokens becomes `" & "`
(ampersand with a space on each side) and `":*"` is appended. -/
theorem C3_sanitize_crimson_thread :
    sanitize_tsquery "crimson thread" true = "crimson & thread:*" := by decide

/-- C7: on a cache hit `cached_or_cache` returns the cached value without
querying Postgres and without writing the cache; on a miss with a first
row it returns that row's value, having queried Postgres and written the
value to the cache under the derived key with the type's TTL. -/
theorem C7_cache_aside (tr : CacheableTr Row T) (cache : String → Option T)
    (dbRows : List Row) (params : List String) :
    (∀ v, cache (cacheable_redis_key tr.keyPfx params) = some v →
      cached_or_cache tr cache dbRows params = CocResult.mk (some v) false none) ∧
    (cache (cacheable_redis_key tr.keyPfx params) = none →
      ∀ row rest, dbRows = row :: rest →
        cached_or_cache tr cache dbRows params =
          CocResult.mk (some (tr.from_row row)) true
            (some (cacheable_redis_key tr.keyPfx params, tr.from_row row,
                   tr.seconds_expiry))) := by
  constructor
  · intro v hv
    show (match cache (cacheable_redis_key tr.keyPfx params) with
          | some val => CocResult.mk (some val) false none
          | none =>
            match dbRows.head? with
            | none => CocResult.mk none true none
            | some row =>
              CocResult.mk (some (tr.from_row row)) true
                (some (cacheable_redis_key tr.keyPfx params, tr.from_row row,
                       tr.seconds_expiry))) = _
    rw [hv]
  · intro hmiss row rest hrows
    show (match cache (cacheable_redis_key tr.keyPfx params) with
          | some val => CocResult.mk (some val) false none
          | none =>
            match dbRows.head? with
            | none => CocResult.mk none true none
            | some row =>
              CocResult.mk (some (tr.from_row row)) true
                (some (cacheable_redis_key tr.keyPfx params, tr.from_row row,
                       tr.seconds_expiry))) = _
    rw [hmiss, hrows]
    rfl

/-- C7 (witness): a concrete hit and a concrete miss-with-row. -/
theorem C7_cache_aside_witness :
    cached_or_cache (CacheableTr.mk "a" 60 "q" (fun r : Nat => r))
        (fun k => if k = "cacheable_a_1" then some 5 else none) [9] ["1"] =
      CocResult.mk (some 5) false none ∧
    cached_or_cache (CacheableTr.mk "a" 60 "q" (fun r : Nat => r))
        (fun _ => none) [9] ["1"] =
      CocResult.mk (some 9) true (some ("cacheable_a_1", 9, 60)) := by
  constructor
  · exact (C7_cache_aside (CacheableTr.mk "a" 60 "q" (fun r : Nat => r))
      (fun k => if k = "cacheable_a_1" then some 5 else none) [9] ["1"]).1 5 (by decide)
  · exact (C7_cache_aside (CacheableTr.mk "a" 60 "q" (fun r : Nat => r))
      (fun _ => none) [9] ["1"]).2 rfl 9 [] rfl

/-- C8: on a cache miss with zero rows, `cached_or_cache` returns none
and performs no cache write, the cache for the key is unchanged, and a
repeated call queries Postgres again. -/
theorem C8_miss_no_row (tr : CacheableTr Row T) (cache : String → Option T)
    (dbRows : List Row) (params : List String)
    (hmiss : cache (cacheable_redis_key tr.keyPfx params) = none)
    (hrows : dbRows = []) :
    cached_or_cache tr cache dbRows params = CocResult.mk none true none ∧
    applyWrite cache (cached_or_cache tr cache dbRows params).cacheWrite = cache ∧
    (cached_or_cache tr
       (applyWrite cache (cached_or_cache tr cache dbRows params).cacheWrite)
       dbRows params).queriedPg = true := by
  have hrun : cached_or_cache tr cache dbRows params = CocResult.mk none true none := by
    show (match cache (cacheable_redis_key tr.keyPfx params) with
          | some val => CocResult.mk (some val) false none
          | none =>
            match dbRows.head? with
            | none => CocResult.mk none true none
            | some row =>
              CocResult.mk (some (tr.from_row row)) true
                (some (cacheable_redis_key tr.keyPfx params, tr.from_row row,
                       tr.seconds_expiry))) = _
    rw [hmiss, hrows]
    rfl
  refine ⟨hrun, ?_, ?_⟩
  · rw [hrun]
    rfl
  · rw [hrun]
    show (cached_or_cache tr cache dbRows params).queriedPg = true
    rw [hrun]

/-- C8 (witness): the miss-and-empty case at concrete inputs. -/
theorem C8_miss_no_row_witness :
    cached_or_cache (CacheableTr.mk "a" 60 "q" (fun r : Nat => r))
        (fun _ => none) [] ["1"] = CocResult.mk none true none :=
  (C8_miss_no_row (CacheableTr.mk "a" 60 "q" (fun r : Nat => r))
    (fun _ => none) [] ["1"] rfl rfl).1

/-- C9 (counterexample): when the insert succeeds but returns no row, the
missing-row error carries the code's message, which is not the string
`"insert succeeded but no row returned"` the claim quotes. -/
theorem C9_counterexample :
    (get_string_id (fun r : Nat => r) [GsiAttempt.mk [] (Except.ok [])]).1 =
      Except.error (GsiError.missingRow
        "How on earth do you insert a row but not get it back?") ∧
    "How on earth do you insert a row but not get it back?" ≠
      "insert succeeded but no row returned" := by
  refine ⟨rfl, by decide⟩

/-- C9 (amended): when the select returns no row — if the insert fails
with a uniqueness-constraint violation, the whole resolve is retried from
the top after a fixed 100 ms delay; if the insert fails with any other
error, that error propagates; and if the insert succeeds but returns zero
rows, a distinct missing-row error is returned (with the code's message
"How on earth do you insert a row but not get it back?"), never silently
ignored. -/
theorem C9_insert_failure_paths (first : Row → T) (rest : List (GsiAttempt Row))
    (etext : String) :
    (isDupKeyErr etext = true →
      get_string_id first (GsiAttempt.mk [] (Except.error etext) :: rest) =
        ((get_string_id first rest).1, 100 + (get_string_id first rest).2)) ∧
    (isDupKeyErr etext = false →
      get_string_id first (GsiAttempt.mk [] (Except.error etext) :: rest) =
        (Except.error (GsiError.pg etext), 0)) ∧
    get_string_id first (GsiAttempt.mk [] (Except.ok []) :: rest) =
      (Except.error (GsiError.missingRow
        "How on earth do you insert a row but not get it back?"), 0) := by
  have hstep : get_string_id first (GsiAttempt.mk [] (Except.error etext) :: rest) =
      if isDupKeyErr etext = true then
        ((get_string_id first rest).1, 100 + (get_string_id first rest).2)
      else (Except.error (GsiError.pg etext), 0) := rfl
  refine ⟨?_, ?_, rfl⟩
  · intro hdup
    rw [hstep, if_pos hdup]
  · intro hnodup
    rw [hstep, if_neg]
    simp [hnodup]

/-- C9 (witness): a duplicate-key insert error retries on the next
attempt, which succeeds, after one 100 ms delay. -/
theorem C9_insert_failure_paths_witness :
    isDupKeyErr dupKeyMarker = true ∧
    get_string_id (fun r : Nat => r)
        (GsiAttempt.mk [] (Except.error dupKeyMarker) :: [GsiAttempt.mk [4] (Except.ok [])]) =
      ((get_string_id (fun r : Nat => r) [GsiAttempt.mk [4] (Except.ok [])]).1,
       100 + (get_string_id (fun r : Nat => r) [GsiAttempt.mk [4] (Except.ok [])]).2) := by
  refine ⟨by decide, ?_⟩
  exact (C9_insert_failure_paths (fun r : Nat => r) [GsiAttempt.mk [4] (Except.ok [])]
    dupKeyMarker).1 (by decide)

/-- C4 (counterexample): `sanitize("!&a", false)` returns `"&a"`, whose
first character is the operator `&` — only one leading operator is
removed, so an input with two distinct leading operators yields an output
that starts with an operator. -/
theorem C4_counterexample :
    sanitize_tsquery "!&a" false = "&a" ∧
    (sanitize_tsquery "!&a" false).toList.head? = some '&' ∧
    isOp '&' = true := by
  refine ⟨by decide, by decide, by decide⟩

/-- C4 (amended): for every input string `p`, `sanitize(p, false)`
contains no characters outside `[A-Za-z0-9 &|!]` and no run of two or
more identical adjacent boolean operators; the guarantee that the output
never starts or ends with an operator does not hold in general, since
only one leading and one trailing operator are removed. -/
theorem C4_sanitize_invariants (p : String) :
    (∀ c ∈ (sanitize_tsquery p false).toList, allowedOut c = true) ∧
    noDupOps (sanitize_tsquery p false).toList = true := by
  constructor
  · intro c hc
    exact allowedOut_of_sanitize hc
  · show noDupOps (stripLeadTrailOps (collapseDupOps
      (replaceSpaceAmp (trimWs (collapseWs (specialToSpace p.toList)))))) = true
    exact noDupOps_dropTrailOp (noDupOps_dropLeadOp (noDupOps_cdoAux _ none))

/-- C4 (witness): the invariants evaluated on the phrase `"a!!b"`. -/
theorem C4_sanitize_invariants_witness :
    allowedOut 'a' = true ∧
    noDupOps (sanitize_tsquery "a!!b" false).toList = true :=
  ⟨(C4_sanitize_invariants "a!!b").1 'a' (by decide),
   (C4_sanitize_invariants "a!!b").2⟩

/-- C5: in a Borg construction whose dedup member is absent, if after the
first-sight hook the set's cardinality exceeds `redis_pk_max_ct`, the set
is cleared before the member is added, so its cardinality right after the
add is 1; in every case the cardinality after the call is at most
`redis_pk_max_ct + 1`. -/
theorem C5_dedup_bound (tr : BorgTr B O R G T) (st : RedisState R) (b : B) (o : O)
    (habs : borgMember tr st b o ∉ st.sets (borgKeySet tr)) :
    (tr.redis_pk_max_ct < (st.sets (borgKeySet tr)).card →
      (((borg tr st b o).state).sets (borgKeySet tr)).card = 1) ∧
    (((borg tr st b o).state).sets (borgKeySet tr)).card ≤ tr.redis_pk_max_ct + 1 := by
  rw [borg_state_sets tr st b o habs]
  constructor
  · intro hover
    rw [if_pos hover]
    simp
  · by_cases hover : tr.redis_pk_max_ct < (st.sets (borgKeySet tr)).card
    · rw [if_pos hover]
      simp
    · rw [if_neg hover]
      have hle := Finset.card_insert_le (borgMember tr st b o) (st.sets (borgKeySet tr))
      omega

/-- C5 (witness): a type with `redis_pk_max_ct = 0` and a dedup set
already holding one member sees the set collapse to cardinality 1. -/
theorem C5_dedup_bound_witness :
    (borgMember smallTr fullSt () () ∉ fullSt.sets (borgKeySet smallTr)) ∧
    ((smallTr.redis_pk_max_ct < (fullSt.sets (borgKeySet smallTr)).card →
        (((borg smallTr fullSt () ()).state).sets (borgKeySet smallTr)).card = 1) ∧
     (((borg smallTr fullSt () ()).state).sets (borgKeySet smallTr)).card ≤
        smallTr.redis_pk_max_ct + 1) :=
  ⟨by decide, C5_dedup_bound smallTr fullSt () () (by decide)⟩

/-- C6: two sequential Borg constructions with the same inputs produce
the same dedup member; when the member is absent at the first call, the
first-sight hook runs on the first call and not on the second. -/
theorem C6_first_sight_once (tr : BorgTr B O R G T) (st : RedisState R) (b : B) (o : O)
    (habs : borgMember tr st b o ∉ st.sets (borgKeySet tr)) :
    (borg tr st b o).calledOnPkSadd = true ∧
    (borg tr (borg tr st b o).state b o).calledOnPkSadd = false := by
  refine ⟨borg_pk_sadd_of_absent tr st b o habs, ?_⟩
  apply borg_no_pk_sadd_of_present
  rw [borg_member_stable, borg_state_sets tr st b o habs]
  exact Finset.mem_insert_self _ _

/-- C6 (witness): the demonstration instance, starting from an empty
Redis state. -/
theorem C6_first_sight_once_witness :
    (borgMember demoTr emptySt () () ∉ emptySt.sets (borgKeySet demoTr)) ∧
    ((borg demoTr emptySt () ()).calledOnPkSadd = true ∧
     (borg demoTr (borg demoTr emptySt () ()).state () ()).calledOnPkSadd = false) :=
  ⟨by decide, C6_first_sight_once demoTr emptySt () () (by decide)⟩

/-- C10: a run of identical operators between two tokens collapses to a
bare space — `sanitize("a!!b", false) = "a b"` has its tokens joined by a
space with no `&` — and, because spaces are not re-normalised after the
operator collapse, the output can contain runs of consecutive spaces, as
in `sanitize("a!! !!b", false) = "a  &  b"`. -/
theorem C10_operator_run_to_space :
    sanitize_tsquery "a!!b" false = "a b" ∧
    sanitize_tsquery "a!! !!b" false = "a  &  b" ∧
    containsSeq [' ', ' '] (sanitize_tsquery "a!! !!b" false).toList = true := by
  refine ⟨by decide, by decide, by decide⟩

end Pachydurable
